import Mathlib

/-!
Shallow embedding of the tree reconstruction and aggregation engine of
pytest-describe-beautifully: the data model (model.py), the name
humanizers (naming.py) and the tree collector (collector.py).

Python dictionaries are embedded as insertion-ordered association lists,
the mutable object graph of nodes as a heap keyed by node identifier
(children are stored as lists of identifiers), and float durations as
rationals, since no claim depends on floating-point rounding.
-/

set_option maxHeartbeats 1000000

namespace PDB

/-- model.py TestOutcome: possible outcomes for a test. -/
inductive TestOutcome where
  | PASSED
  | FAILED
  | SKIPPED
  | XFAILED
  | XPASSED
  | ERROR
  | PENDING
deriving DecidableEq, BEq, Repr

/-- model.py NodeType: type of node in the describe tree. -/
inductive NodeType where
  | FILE
  | DESCRIBE
  | TEST
deriving DecidableEq, BEq, Repr

/-- model.py TestResult: result of a single test execution.
Defaults mirror the dataclass defaults. -/
structure TestResult where
  outcome : TestOutcome := TestOutcome.PENDING
  duration : Rat := 0
  longrepr : String := ""
  sections : List (String × String) := []
  fixture_names : List String := []
deriving DecidableEq, Repr

/-- model.py DescribeNode: a node in the describe tree.  The Python
dataclass holds its children as a list of node objects; here the
object graph below a node is materialised as a nested inductive. -/
inductive DescribeNode where
  | mk (name : String) (display_name : String) (node_type : NodeType)
       (nodeid : String) (docstring : String)
       (children : List DescribeNode) (result : Option TestResult)
deriving Repr

namespace DescribeNode

def name : DescribeNode → String
  | mk n _ _ _ _ _ _ => n

def display_name : DescribeNode → String
  | mk _ d _ _ _ _ _ => d

def node_type : DescribeNode → NodeType
  | mk _ _ t _ _ _ _ => t

def nodeid : DescribeNode → String
  | mk _ _ _ i _ _ _ => i

def docstring : DescribeNode → String
  | mk _ _ _ _ d _ _ => d

def children : DescribeNode → List DescribeNode
  | mk _ _ _ _ _ cs _ => cs

def result : DescribeNode → Option TestResult
  | mk _ _ _ _ _ _ r => r

/-- model.py DescribeNode.is_test. -/
def is_test (n : DescribeNode) : Bool := n.node_type == NodeType.TEST

mutual

/-- model.py DescribeNode.test_count. -/
def test_count : DescribeNode → Nat
  | mk _ _ t _ _ cs _ =>
    if t = NodeType.TEST then 1 else test_count_list cs

/-- Sum of test_count over a list of children, embedding the Python
generator sum. -/
def test_count_list : List DescribeNode → Nat
  | [] => 0
  | c :: cs => test_count c + test_count_list cs

end

mutual

/-- model.py DescribeNode.passed_count. -/
def passed_count : DescribeNode → Nat
  | mk _ _ t _ _ cs r =>
    if t = NodeType.TEST then
      match r with
      | some res => if res.outcome = TestOutcome.PASSED then 1 else 0
      | none => 0
    else passed_count_list cs

def passed_count_list : List DescribeNode → Nat
  | [] => 0
  | c :: cs => passed_count c + passed_count_list cs

end

mutual

/-- model.py DescribeNode.failed_count: a TEST counts when its outcome
is FAILED or ERROR. -/
def failed_count : DescribeNode → Nat
  | mk _ _ t _ _ cs r =>
    if t = NodeType.TEST then
      match r with
      | some res =>
        if res.outcome = TestOutcome.FAILED ∨ res.outcome = TestOutcome.ERROR then 1 else 0
      | none => 0
    else failed_count_list cs

def failed_count_list : List DescribeNode → Nat
  | [] => 0
  | c :: cs => failed_count c + failed_count_list cs

end

mutual

/-- model.py DescribeNode.skipped_count. -/
def skipped_count : DescribeNode → Nat
  | mk _ _ t _ _ cs r =>
    if t = NodeType.TEST then
      match r with
      | some res => if res.outcome = TestOutcome.SKIPPED then 1 else 0
      | none => 0
    else skipped_count_list cs

def skipped_count_list : List DescribeNode → Nat
  | [] => 0
  | c :: cs => skipped_count c + skipped_count_list cs

end

mutual

/-- model.py DescribeNode.aggregate_duration. -/
def aggregate_duration : DescribeNode → Rat
  | mk _ _ t _ _ cs r =>
    if t = NodeType.TEST then
      match r with
      | some res => res.duration
      | none => 0
    else aggregate_duration_list cs

def aggregate_duration_list : List DescribeNode → Rat
  | [] => 0
  | c :: cs => aggregate_duration c + aggregate_duration_list cs

end

mutual

/-- model.py DescribeNode.overall_outcome: composite outcome with the
exact precedence of the source. -/
def overall_outcome : DescribeNode → TestOutcome
  | mk _ _ t _ _ cs r =>
    if t = NodeType.TEST then
      match r with
      | some res => res.outcome
      | none => TestOutcome.PENDING
    else
      let outcomes := overall_outcome_list cs
      if outcomes = [] then TestOutcome.PENDING
      else if outcomes.any (fun o => o == TestOutcome.FAILED || o == TestOutcome.ERROR) then
        TestOutcome.FAILED
      else if outcomes.any (fun o => o == TestOutcome.XPASSED) then TestOutcome.XPASSED
      else if outcomes.all (fun o => o == TestOutcome.SKIPPED) then TestOutcome.SKIPPED
      else if outcomes.all (fun o => o == TestOutcome.PENDING) then TestOutcome.PENDING
      else TestOutcome.PASSED

/-- The list of the children overall outcomes, embedding the Python
list comprehension. -/
def overall_outcome_list : List DescribeNode → List TestOutcome
  | [] => []
  | c :: cs => overall_outcome c :: overall_outcome_list cs

end

end DescribeNode

/-! ### naming.py -/

/-- Embeds Python startswith on character lists: first argument is the
string, second the pattern. -/
def startsWithChars : List Char → List Char → Bool
  | _, [] => true
  | [], _ :: _ => false
  | c :: cs, p :: ps => c == p && startsWithChars cs ps

/-- Embeds the Python single-character replace used by naming.py:
str.replace with a one-character pattern and one-character replacement
maps every occurrence of the pattern character. -/
def replaceChar (l : List Char) (a b : Char) : List Char :=
  l.map (fun c => if c = a then b else c)

/-- The stripping loop of naming.py humanize_describe_name: the two
recognised spellings are tried in order, the first match is stripped
and the loop breaks (both spellings are nine characters long). -/
def stripDescribe (l : List Char) : List Char :=
  if startsWithChars l "describe_".toList then l.drop 9
  else if startsWithChars l "Describe_".toList then l.drop 9
  else l

/-- naming.py humanize_describe_name, operating on the character list
of the input. -/
def humanize_describe_name (name : String) : String :=
  let stripped := stripDescribe name.toList
  if stripped = [] then name
  else if (match stripped with
           | c :: _ => c.isUpper
           | [] => false) && !(stripped.contains '_') then
    String.mk stripped
  else
    String.mk (replaceChar stripped '_' ' ')

/-- naming.py humanize_test_name. -/
def humanize_test_name (name : String) : String :=
  String.mk (replaceChar name.toList '_' ' ')

/-! ### collector.py: chain links and classification -/

/-- collector.py BUILTIN_FIXTURES: builtin fixtures filtered out from
display. -/
def BUILTIN_FIXTURES : List String :=
  [ "request", "pytestconfig", "tmp_path", "tmp_path_factory", "capsys",
    "capfd", "capsysbinary", "capfdbinary", "caplog", "monkeypatch",
    "recwarn", "doctest_namespace", "cache", "record_property",
    "record_testsuite_property", "record_xml_attribute", "pytester",
    "testdir" ]

/-- One element of an item chain, embedding the duck-typed pytest
node that collector.py probes with hasattr.  Boolean fields record
attribute presence; is_describe_block records the outcome of the
type test in collector.py _is_describe_block; funcobj_doc and
obj_doc are the inspect.getdoc results of the funcobj and obj
attributes (none when the attribute is absent; a function or module
object is always truthy in Python so attribute presence decides the
fallback chain). -/
structure ChainLink where
  nodeid : String
  name : String
  has_fspath : Bool
  has_collect : Bool
  is_describe_block : Bool
  has_path : Bool
  has_reportinfo : Bool
  funcobj_doc : Option String
  obj_doc : Option String
  has_function : Bool
  function_doc : String
  fixturenames : List String
deriving DecidableEq, Repr

/-- collector.py TreeCollector._classify_link.  Returns none when the
link is skipped, otherwise the (node_type, display_name, docstring,
fixture_names) tuple. -/
def classify_link (link : ChainLink) : Option (NodeType × String × String × List String) :=
  if link.has_fspath && link.has_collect then
    if link.is_describe_block then
      let docstring :=
        match link.funcobj_doc with
        | some d => d
        | none =>
          match link.obj_doc with
          | some d => d
          | none => ""
      some (NodeType.DESCRIBE, humanize_describe_name link.name, docstring, [])
    else if link.has_path && !link.has_reportinfo then
      none
    else if link.has_path then
      some (NodeType.FILE, link.name, "", [])
    else
      none
  else if link.has_function then
    some (NodeType.TEST, humanize_test_name link.name, link.function_doc,
          link.fixturenames.filter (fun f => !(BUILTIN_FIXTURES.contains f)))
  else
    none

/-! ### collector.py: the heap of nodes and the collector state

The Python collector mutates a shared object graph: DescribeNode
objects are reachable both from the dict self._nodes (keyed by
nodeid) and from the children lists of other nodes and tree.roots.
The heap is embedded as an insertion-ordered association list from
nodeid to a stored node whose children and roots entries are
nodeids. -/

/-- The per-node record held in the heap; the same fields as
DescribeNode, with children as a list of nodeids. -/
structure StoredNode where
  name : String
  display_name : String
  docstring : String
  node_type : NodeType
  nodeid : String
  children : List String
  result : Option TestResult
deriving DecidableEq, Repr

/-- One half, the default slow_threshold of 0.5 seconds, written as a
normalised rational constructor so that it evaluates by kernel
reduction. -/
def ratHalf : Rat := ⟨1, 2, by decide, Nat.coprime_one_left 2⟩

/-- The collector state: DescribeTree roots plus the _nodes mapping,
with the slow_threshold configuration value carried by the tree (used
only by presentation code). -/
structure CollectorState where
  roots : List String
  nodes : List (String × StoredNode)
  slow_threshold : Rat := ratHalf
deriving DecidableEq, Repr

/-- The state of a fresh TreeCollector. -/
def initState : CollectorState := { roots := [], nodes := [] }

/-- Dictionary lookup in the heap (first entry with the key wins, and
build never creates two entries with one key). -/
def lookupNode : List (String × StoredNode) → String → Option StoredNode
  | [], _ => none
  | p :: rest, nid => if p.1 = nid then some p.2 else lookupNode rest nid

/-- Embeds parent_node.children.append(node): the entry of the parent
key gets the child nodeid appended. -/
def appendChild (nodes : List (String × StoredNode)) (pid cid : String) :
    List (String × StoredNode) :=
  nodes.map (fun p =>
    if p.1 = pid then (p.1, { p.2 with children := p.2.children ++ [cid] }) else p)

/-- Embeds node.result = some newRes on the node stored at the key. -/
def setResult (nodes : List (String × StoredNode)) (key : String) (newRes : TestResult) :
    List (String × StoredNode) :=
  nodes.map (fun p =>
    if p.1 = key then (p.1, { p.2 with result := some newRes }) else p)

/-- The DescribeNode constructed by build_from_items for a classified
link, with the default TestResult attached when the kind is TEST. -/
def newNodeFor (link : ChainLink) (nt : NodeType) (dn doc : String)
    (fx : List String) : StoredNode :=
  { name := link.name, display_name := dn, docstring := doc,
    node_type := nt, nodeid := link.nodeid, children := [],
    result := if nt = NodeType.TEST then some { fixture_names := fx } else none }

/-- The body of the collector.py build_from_items loop for one chain:
walks the links in order, tracking the most recently resolved node as
the current parent. -/
def buildChain : CollectorState → Option String → List ChainLink → CollectorState
  | s, _, [] => s
  | s, p, link :: rest =>
    if (lookupNode s.nodes link.nodeid).isSome then
      buildChain s (some link.nodeid) rest
    else
      match classify_link link with
      | none => buildChain s p rest
      | some (nt, dn, doc, fx) =>
        let node : StoredNode := newNodeFor link nt dn doc fx
        let s1 : CollectorState := { s with nodes := s.nodes ++ [(link.nodeid, node)] }
        let s2 : CollectorState :=
          match p with
          | some pid => { s1 with nodes := appendChild s1.nodes pid link.nodeid }
          | none =>
            if nt = NodeType.FILE then { s1 with roots := s1.roots ++ [link.nodeid] }
            else s1
        buildChain s2 (some link.nodeid) rest

/-- collector.py TreeCollector.build_from_items: one buildChain pass
per item, in order; each chain starts with no current parent. -/
def build_from_items : CollectorState → List (List ChainLink) → CollectorState
  | s, [] => s
  | s, c :: cs => build_from_items (buildChain s none c) cs

/-! ### model.py find_by_nodeid over the heap

DescribeTree.find_by_nodeid tries each root in order and each root
recursively searches itself and then its children in order: a preorder
depth-first search of the object graph.  Over the heap this is the
stack-based preorder walk below; the fuel argument bounds the walk
(the graphs the collector builds are finite forests, which the
canonical fuel of stateFuel always covers). -/

/-- Preorder depth-first search for the first node whose nodeid field
equals the target, returning the heap key of the found node. -/
def findDFS (nodes : List (String × StoredNode)) (target : String) :
    Nat → List String → Option String
  | 0, _ => none
  | _ + 1, [] => none
  | fuel + 1, nid :: rest =>
    match lookupNode nodes nid with
    | none => findDFS nodes target fuel rest
    | some n =>
      if n.nodeid = target then some nid
      else findDFS nodes target fuel (n.children ++ rest)

/-- Fuel that covers a full traversal of any forest-shaped state: one
step per root occurrence plus one per child occurrence. -/
def stateFuel (s : CollectorState) : Nat :=
  s.roots.length + (s.nodes.map (fun p => p.2.children.length)).sum + 1

/-- model.py DescribeTree.find_by_nodeid composed with
DescribeNode.find_by_nodeid, over the heap. -/
def find_by_nodeid (s : CollectorState) (target : String) : Option String :=
  findDFS s.nodes target (stateFuel s) s.roots

/-! ### collector.py: result events -/

/-- A pytest report as consumed by collector.py update_from_report
and _map_outcome: phase embeds report.when; wasxfail embeds
hasattr(report, "wasxfail"); longreprtext is none when the attribute
is absent (its truthiness check is then false, and an empty string is
also falsy). -/
structure Report where
  nodeid : String
  phase : String
  passed : Bool
  failed : Bool
  skipped : Bool
  wasxfail : Bool
  duration : Rat
  longreprtext : Option String
  sections : List (String × String)
deriving DecidableEq, Repr

/-- collector.py _map_outcome: convert a pytest report to a
TestOutcome. -/
def map_outcome (r : Report) : TestOutcome :=
  if r.wasxfail then
    if r.passed then TestOutcome.XPASSED else TestOutcome.XFAILED
  else if r.passed then TestOutcome.PASSED
  else if r.failed then TestOutcome.FAILED
  else if r.skipped then TestOutcome.SKIPPED
  else TestOutcome.PENDING

/-- The truthiness of hasattr(report, "longreprtext") and
report.longreprtext. -/
def longreprTruthy (r : Report) : Bool :=
  match r.longreprtext with
  | some t => t != ""
  | none => false

/-- The longreprtext value of the report when present, else an empty
string. -/
def longreprValue (r : Report) : String :=
  match r.longreprtext with
  | some t => t
  | none => ""

/-- The mutation of the call branch of update_from_report on the
result of the found node. -/
def applyCall (res : TestResult) (r : Report) : TestResult :=
  { res with
    outcome := map_outcome r
    duration := r.duration
    longrepr := if longreprTruthy r then longreprValue r else res.longrepr
    sections := if r.sections.isEmpty then [] else r.sections }

/-- The mutation of the setup/teardown failed branch of
update_from_report. -/
def applySetupTeardownFailed (res : TestResult) (r : Report) : TestResult :=
  { res with
    outcome := TestOutcome.ERROR
    duration := r.duration
    longrepr := if longreprTruthy r then longreprValue r else res.longrepr }

/-- The mutation of the setup skipped branch of update_from_report. -/
def applySetupSkipped (res : TestResult) (r : Report) : TestResult :=
  { res with
    outcome := map_outcome r
    duration := r.duration }

/-- collector.py TreeCollector.update_from_report: resolves the
target by find_by_nodeid (a search from the roots), and mutates the
found node's result according to the phase and flags; every other
case leaves the state untouched. -/
def update_from_report (s : CollectorState) (r : Report) : CollectorState :=
  if r.phase == "call" then
    match find_by_nodeid s r.nodeid with
    | none => s
    | some key =>
      match lookupNode s.nodes key with
      | none => s
      | some n =>
        match n.result with
        | none => s
        | some res => { s with nodes := setResult s.nodes key (applyCall res r) }
  else if (r.phase == "setup" || r.phase == "teardown") && r.failed then
    match find_by_nodeid s r.nodeid with
    | none => s
    | some key =>
      match lookupNode s.nodes key with
      | none => s
      | some n =>
        match n.result with
        | none => s
        | some res => { s with nodes := setResult s.nodes key (applySetupTeardownFailed res r) }
  else if r.phase == "setup" && r.skipped then
    match find_by_nodeid s r.nodeid with
    | none => s
    | some key =>
      match lookupNode s.nodes key with
      | none => s
      | some n =>
        match n.result with
        | none => s
        | some res => { s with nodes := setResult s.nodes key (applySetupSkipped res r) }
  else s

/-! ### Materialising the heap into DescribeNode values

The aggregation properties of model.py are recursions over the object
graph below a root.  matNode rebuilds that graph as a DescribeNode
value; with enough fuel it is the object the Python code holds. -/

/-- Materialise the node stored under a heap key, following children
keys; none when the key dangles or the fuel runs out (unresolvable
children keys are dropped; the heaps the collector builds resolve
every child). -/
def matNode (nodes : List (String × StoredNode)) : Nat → String → Option DescribeNode
  | 0, _ => none
  | fuel + 1, nid =>
    match lookupNode nodes nid with
    | none => none
    | some n =>
      some (DescribeNode.mk n.name n.display_name n.node_type n.nodeid n.docstring
        (n.children.filterMap (fun c => matNode nodes fuel c)) n.result)

/-- The forest of root objects of the tree, materialised with the
given fuel. -/
def matForest (s : CollectorState) (fuel : Nat) : List DescribeNode :=
  s.roots.filterMap (fun nid => matNode s.nodes fuel nid)

/-- model.py DescribeTree.total_tests over the materialised forest. -/
def total_tests (s : CollectorState) (fuel : Nat) : Nat :=
  ((matForest s fuel).map DescribeNode.test_count).sum

/-- model.py DescribeTree.total_passed over the materialised forest. -/
def total_passed (s : CollectorState) (fuel : Nat) : Nat :=
  ((matForest s fuel).map DescribeNode.passed_count).sum

/-- model.py DescribeTree.total_failed over the materialised forest. -/
def total_failed (s : CollectorState) (fuel : Nat) : Nat :=
  ((matForest s fuel).map DescribeNode.failed_count).sum

/-- model.py DescribeTree.total_skipped over the materialised forest. -/
def total_skipped (s : CollectorState) (fuel : Nat) : Nat :=
  ((matForest s fuel).map DescribeNode.skipped_count).sum

/-- model.py DescribeTree.total_duration over the materialised forest. -/
def total_duration (s : CollectorState) (fuel : Nat) : Rat :=
  ((matForest s fuel).map DescribeNode.aggregate_duration).sum

/-! ### Sample inputs used by witnesses and counterexamples -/

/-- A pytest Module link: fspath, collect, path and reportinfo are all
present, and it is not a describe block. -/
def exModuleLink : ChainLink :=
  { nodeid := "f", name := "f.py", has_fspath := true, has_collect := true,
    is_describe_block := false, has_path := true, has_reportinfo := true,
    funcobj_doc := none, obj_doc := none, has_function := false,
    function_doc := "", fixturenames := [] }

/-- A pytest Session link: collector shape with a path but without
reportinfo. -/
def exSessionLink : ChainLink :=
  { nodeid := "", name := "sess", has_fspath := true, has_collect := true,
    is_describe_block := false, has_path := true, has_reportinfo := false,
    funcobj_doc := none, obj_doc := none, has_function := false,
    function_doc := "", fixturenames := [] }

/-- A DescribeBlock link. -/
def exDescLink : ChainLink :=
  { nodeid := "d", name := "describe_my_feature", has_fspath := true,
    has_collect := true, is_describe_block := true, has_path := true,
    has_reportinfo := true, funcobj_doc := some "block doc", obj_doc := none,
    has_function := false, function_doc := "", fixturenames := [] }

/-- A test Function link. -/
def exTestLink (nid nm : String) : ChainLink :=
  { nodeid := nid, name := nm, has_fspath := false, has_collect := false,
    is_describe_block := false, has_path := false, has_reportinfo := false,
    funcobj_doc := none, obj_doc := none, has_function := true,
    function_doc := "", fixturenames := ["request", "capsys", "my_fixture", "monkeypatch", "db"] }

/-- The first example chain of the spec: session, file, describe, test. -/
def exChain1 : List ChainLink := [exSessionLink, exModuleLink, exDescLink, exTestLink "t1" "it_works"]

/-- The second example chain, sharing every ancestor identifier. -/
def exChain2 : List ChainLink := [exSessionLink, exModuleLink, exDescLink, exTestLink "t2" "it_fails"]

/-- The example state built from the two chains. -/
def exState : CollectorState := build_from_items initState [exChain1, exChain2]

/-- A TEST node value with the given outcome, for the aggregation
examples. -/
def exTestNode (nid : String) (o : TestOutcome) : DescribeNode :=
  DescribeNode.mk "t" "t" NodeType.TEST nid "" [] (some { outcome := o })

/-- A DESCRIBE node value over the given children. -/
def exGroupNode (cs : List DescribeNode) : DescribeNode :=
  DescribeNode.mk "d" "d" NodeType.DESCRIBE "d" "" cs none

/-- The default result the builder attaches to the t1 test link after
fixture filtering. -/
def exT1Res : TestResult := { fixture_names := ["my_fixture", "db"] }

/-- The stored node the builder creates for the t1 test link. -/
def exT1StoredNode : StoredNode :=
  { name := "it_works", display_name := "it works", docstring := "",
    node_type := NodeType.TEST, nodeid := "t1", children := [],
    result := some exT1Res }

/-- A call-phase passed report for t1 with an empty longreprtext and
one output section. -/
def exReportCall : Report :=
  { nodeid := "t1", phase := "call", passed := true, failed := false,
    skipped := false, wasxfail := false, duration := 3,
    longreprtext := some "", sections := [("stdout", "hi")] }

/-- A setup-phase failed report for t1 that also carries the
expected-failure marker. -/
def exReportSetupFail : Report :=
  { nodeid := "t1", phase := "setup", passed := false, failed := true,
    skipped := false, wasxfail := true, duration := 2,
    longreprtext := some "boom", sections := [] }

/-- A call report whose target identifier is not in the tree. -/
def exReportUnknown : Report :=
  { nodeid := "zz", phase := "call", passed := true, failed := false,
    skipped := false, wasxfail := false, duration := 0,
    longreprtext := none, sections := [] }

/-- A call report targeting the orphan describe node below. -/
def exReportOrphan : Report :=
  { nodeid := "d", phase := "call", passed := true, failed := false,
    skipped := false, wasxfail := false, duration := 1,
    longreprtext := none, sections := [] }

/-- A state grown from an orphan describe node: the describe link is
built first from an empty state (so it has no parent and is not a
FILE), then a full chain that reuses its identifier is built on top,
and one unrelated report is applied. -/
def exOrphanState : CollectorState :=
  [exReportUnknown].foldl update_from_report
    (build_from_items (buildChain initState none [exDescLink]) [exChain1])

/-- The overallOutcome precedence over a list of children outcomes, as
worded by the claim: empty gives PENDING; else any FAILED or ERROR
gives FAILED; else any XPASSED gives XPASSED; else all SKIPPED gives
SKIPPED; else all PENDING gives PENDING; else PASSED. -/
def outcomePrecedence (outcomes : List TestOutcome) : TestOutcome :=
  if outcomes = [] then TestOutcome.PENDING
  else if outcomes.any (fun o => o == TestOutcome.FAILED || o == TestOutcome.ERROR) then
    TestOutcome.FAILED
  else if outcomes.any (fun o => o == TestOutcome.XPASSED) then TestOutcome.XPASSED
  else if outcomes.all (fun o => o == TestOutcome.SKIPPED) then TestOutcome.SKIPPED
  else if outcomes.all (fun o => o == TestOutcome.PENDING) then TestOutcome.PENDING
  else TestOutcome.PASSED

/-- An orphan identifier: not a tree root and not referenced by any
children list, hence unreachable by any traversal that starts at the
roots. -/
def Orphan (s : CollectorState) (id : String) : Prop :=
  id ∉ s.roots ∧ ∀ p ∈ s.nodes, id ∉ p.2.children

/-- Every root identifier resolves in the heap. -/
def RootsClosed (s : CollectorState) : Prop :=
  ∀ id ∈ s.roots, (lookupNode s.nodes id).isSome = true

/-- Every child identifier resolves in the heap. -/
def ChildrenClosed (s : CollectorState) : Prop :=
  ∀ p ∈ s.nodes, ∀ c ∈ p.2.children, (lookupNode s.nodes c).isSome = true

/-- Every heap entry stores a node whose nodeid equals its key, as the
builder guarantees. -/
def fieldsOK (ns : List (String × StoredNode)) : Prop :=
  ∀ p ∈ ns, p.2.nodeid = p.1

/-- The state with the entry of one key dropped from the heap; used to
express that an unreachable entry contributes nothing to the
aggregated tree. -/
def eraseKey (s : CollectorState) (id : String) : CollectorState :=
  { s with nodes := s.nodes.filter (fun p => !(p.1 == id)) }

/-! ### Helper lemmas -/

theorem overall_outcome_list_eq_map (cs : List DescribeNode) :
    DescribeNode.overall_outcome_list cs = cs.map DescribeNode.overall_outcome := by
  induction cs with
  | nil => rfl
  | cons c cs ih => simp [DescribeNode.overall_outcome_list, ih]

theorem test_count_list_eq_sum (cs : List DescribeNode) :
    DescribeNode.test_count_list cs = (cs.map DescribeNode.test_count).sum := by
  induction cs with
  | nil => rfl
  | cons c cs ih => simp [DescribeNode.test_count_list, ih]

theorem passed_count_list_eq_sum (cs : List DescribeNode) :
    DescribeNode.passed_count_list cs = (cs.map DescribeNode.passed_count).sum := by
  induction cs with
  | nil => rfl
  | cons c cs ih => simp [DescribeNode.passed_count_list, ih]

theorem failed_count_list_eq_sum (cs : List DescribeNode) :
    DescribeNode.failed_count_list cs = (cs.map DescribeNode.failed_count).sum := by
  induction cs with
  | nil => rfl
  | cons c cs ih => simp [DescribeNode.failed_count_list, ih]

theorem skipped_count_list_eq_sum (cs : List DescribeNode) :
    DescribeNode.skipped_count_list cs = (cs.map DescribeNode.skipped_count).sum := by
  induction cs with
  | nil => rfl
  | cons c cs ih => simp [DescribeNode.skipped_count_list, ih]

theorem aggregate_duration_list_eq_sum (cs : List DescribeNode) :
    DescribeNode.aggregate_duration_list cs = (cs.map DescribeNode.aggregate_duration).sum := by
  induction cs with
  | nil => rfl
  | cons c cs ih => simp [DescribeNode.aggregate_duration_list, ih]

theorem lookupNode_append (ns ms : List (String × StoredNode)) (id : String) :
    lookupNode (ns ++ ms) id =
      (match lookupNode ns id with
       | some n => some n
       | none => lookupNode ms id) := by
  induction ns with
  | nil => simp [lookupNode]
  | cons p rest ih =>
    simp only [List.cons_append, lookupNode]
    by_cases hp : p.1 = id
    · simp [hp]
    · simp [hp, ih]

theorem lookupNode_appendChild_self (ns : List (String × StoredNode)) (pid cid : String) :
    lookupNode (appendChild ns pid cid) pid =
      (lookupNode ns pid).map (fun n => { n with children := n.children ++ [cid] }) := by
  induction ns with
  | nil => rfl
  | cons p rest ih =>
    by_cases hp : p.1 = pid
    · simp [appendChild, lookupNode, hp]
    · simp [appendChild, lookupNode, hp] at ih ⊢
      exact ih

theorem lookupNode_appendChild_ne (ns : List (String × StoredNode)) (pid cid id : String)
    (h : ¬ id = pid) :
    lookupNode (appendChild ns pid cid) id = lookupNode ns id := by
  have h2 : ¬ pid = id := fun hh => h hh.symm
  induction ns with
  | nil => rfl
  | cons p rest ih =>
    by_cases hp : p.1 = pid
    · simp [appendChild, lookupNode, hp, h2] at ih ⊢
      exact ih
    · by_cases hq : p.1 = id
      · simp [appendChild, lookupNode, hp, hq, h, h2]
      · simp [appendChild, lookupNode, hp, hq] at ih ⊢
        exact ih

theorem lookupNode_setResult_ne (ns : List (String × StoredNode)) (key : String)
    (res : TestResult) (id : String) (h : ¬ id = key) :
    lookupNode (setResult ns key res) id = lookupNode ns id := by
  have h2 : ¬ key = id := fun hh => h hh.symm
  induction ns with
  | nil => rfl
  | cons p rest ih =>
    by_cases hp : p.1 = key
    · simp [setResult, lookupNode, hp, h2] at ih ⊢
      exact ih
    · by_cases hq : p.1 = id
      · simp [setResult, lookupNode, hp, hq, h, h2]
      · simp [setResult, lookupNode, hp, hq] at ih ⊢
        exact ih

theorem lookupNode_appendChild_isSome (ns : List (String × StoredNode)) (pid cid id : String) :
    (lookupNode ns id).isSome = true →
    (lookupNode (appendChild ns pid cid) id).isSome = true := by
  intro h
  by_cases hp : id = pid
  · subst hp
    rw [lookupNode_appendChild_self]
    simpa using h
  · rw [lookupNode_appendChild_ne ns pid cid id hp]
    exact h

theorem lookupNode_mem (ns : List (String × StoredNode)) (id : String) (n : StoredNode)
    (h : lookupNode ns id = some n) : (id, n) ∈ ns := by
  induction ns with
  | nil => simp [lookupNode] at h
  | cons p rest ih =>
    obtain ⟨a, b⟩ := p
    by_cases hp : a = id
    · subst hp
      simp [lookupNode] at h
      subst h
      exact List.mem_cons_self _ _
    · simp [lookupNode, hp] at h
      exact List.mem_cons_of_mem _ (ih h)

theorem lookupNode_isSome_iff (ns : List (String × StoredNode)) (id : String) :
    (lookupNode ns id).isSome = true ↔ id ∈ ns.map (fun p => p.1) := by
  induction ns with
  | nil => simp [lookupNode]
  | cons p rest ih =>
    by_cases hp : p.1 = id
    · simp [lookupNode, hp]
    · have hp2 : ¬ id = p.1 := fun hh => hp hh.symm
      simp [lookupNode, hp, hp2, ih]

theorem keys_appendChild (ns : List (String × StoredNode)) (pid cid : String) :
    (appendChild ns pid cid).map (fun p => p.1) = ns.map (fun p => p.1) := by
  induction ns with
  | nil => rfl
  | cons p rest ih =>
    by_cases hp : p.1 = pid
    · simp [appendChild, hp] at ih ⊢
      exact ih
    · simp [appendChild, hp] at ih ⊢
      exact ih

theorem keys_setResult (ns : List (String × StoredNode)) (key : String) (res : TestResult) :
    (setResult ns key res).map (fun p => p.1) = ns.map (fun p => p.1) := by
  induction ns with
  | nil => rfl
  | cons p rest ih =>
    by_cases hp : p.1 = key
    · simp [setResult, hp] at ih ⊢
      exact ih
    · simp [setResult, hp] at ih ⊢
      exact ih

theorem lookupNode_filter_ne (ns : List (String × StoredNode)) (o id : String)
    (h : ¬ id = o) :
    lookupNode (ns.filter (fun p => !(p.1 == o))) id = lookupNode ns id := by
  have h2 : ¬ o = id := fun hh => h hh.symm
  induction ns with
  | nil => rfl
  | cons p rest ih =>
    by_cases ho : p.1 = o
    · simp [List.filter_cons, lookupNode, ho, h2] at ih ⊢
      exact ih
    · by_cases hq : p.1 = id
      · simp [List.filter_cons, lookupNode, ho, hq, h, h2]
      · simp [List.filter_cons, lookupNode, ho, hq] at ih ⊢
        exact ih

theorem lookupNode_append_isSome_left (ns ms : List (String × StoredNode)) (id : String)
    (h : (lookupNode ns id).isSome = true) :
    (lookupNode (ns ++ ms) id).isSome = true := by
  rw [lookupNode_append]
  obtain ⟨n, hn⟩ := Option.isSome_iff_exists.mp h
  simp [hn]

theorem lookupNode_append_singleton_self (ns : List (String × StoredNode)) (id : String)
    (n : StoredNode) :
    (lookupNode (ns ++ [(id, n)]) id).isSome = true := by
  rw [lookupNode_append]
  cases hl : lookupNode ns id <;> simp [lookupNode]

theorem nodup_keys_append_singleton (l : List String) (a : String)
    (h : l.Nodup) (ha : a ∉ l) : (l ++ [a]).Nodup := by
  simp [List.nodup_append, h, ha]

/-- Keys present in the heap survive any further buildChain pass. -/
theorem buildChain_mono (chain : List ChainLink) :
    ∀ (s : CollectorState) (p : Option String) (id : String),
      (lookupNode s.nodes id).isSome = true →
      (lookupNode (buildChain s p chain).nodes id).isSome = true := by
  induction chain with
  | nil =>
    intro s p id h
    simpa [buildChain] using h
  | cons e rest ih =>
    intro s p id h
    simp only [buildChain]
    by_cases hseen : (lookupNode s.nodes e.nodeid).isSome = true
    · rw [if_pos hseen]
      exact ih _ _ _ h
    · rw [if_neg hseen]
      cases hcl : classify_link e with
      | none => exact ih _ _ _ h
      | some q =>
        obtain ⟨nt, dn, doc, fx⟩ := q
        refine ih _ _ _ ?_
        cases p with
        | some pid =>
          exact lookupNode_appendChild_isSome _ _ _ _ (lookupNode_append_isSome_left _ _ _ h)
        | none =>
          by_cases hnt : nt = NodeType.FILE
          · simp only [if_pos hnt]
            exact lookupNode_append_isSome_left _ _ _ h
          · simp only [if_neg hnt]
            exact lookupNode_append_isSome_left _ _ _ h

/-- A buildChain pass over elements that are all either skipped or
already resolved leaves the state untouched. -/
theorem buildChain_noop (chain : List ChainLink) :
    ∀ (s : CollectorState) (p : Option String),
      (∀ e ∈ chain, classify_link e = none ∨ (lookupNode s.nodes e.nodeid).isSome = true) →
      buildChain s p chain = s := by
  induction chain with
  | nil => intro s p _; rfl
  | cons e rest ih =>
    intro s p h
    have he := h e (List.mem_cons_self e rest)
    have hrest : ∀ x ∈ rest, classify_link x = none ∨ (lookupNode s.nodes x.nodeid).isSome = true :=
      fun x hx => h x (List.mem_cons_of_mem _ hx)
    simp only [buildChain]
    by_cases hseen : (lookupNode s.nodes e.nodeid).isSome = true
    · rw [if_pos hseen]
      exact ih s (some e.nodeid) hrest
    · have hcl : classify_link e = none := by
        rcases he with hcl | hs
        · exact hcl
        · exact absurd hs hseen
      rw [if_neg hseen, hcl]
      exact ih s p hrest

/-- After a buildChain pass every element of the chain is either
skipped by classification or present in the heap. -/
theorem buildChain_covers (chain : List ChainLink) :
    ∀ (s : CollectorState) (p : Option String), ∀ e ∈ chain,
      classify_link e = none ∨
      (lookupNode (buildChain s p chain).nodes e.nodeid).isSome = true := by
  induction chain with
  | nil =>
    intro s p e he
    simp at he
  | cons x rest ih =>
    intro s p e he
    rcases List.mem_cons.mp he with rfl | hmem
    · simp only [buildChain]
      by_cases hseen : (lookupNode s.nodes e.nodeid).isSome = true
      · rw [if_pos hseen]
        exact Or.inr (buildChain_mono rest _ _ _ hseen)
      · rw [if_neg hseen]
        cases hcl : classify_link e with
        | none => exact Or.inl rfl
        | some q =>
          obtain ⟨nt, dn, doc, fx⟩ := q
          refine Or.inr (buildChain_mono rest _ _ _ ?_)
          cases p with
          | some pid =>
            exact lookupNode_appendChild_isSome _ _ _ _
              (lookupNode_append_singleton_self _ _ _)
          | none =>
            by_cases hnt : nt = NodeType.FILE
            · simp only [if_pos hnt]
              exact lookupNode_append_singleton_self _ _ _
            · simp only [if_neg hnt]
              exact lookupNode_append_singleton_self _ _ _
    · simp only [buildChain]
      by_cases hseen : (lookupNode s.nodes x.nodeid).isSome = true
      · rw [if_pos hseen]
        exact ih _ _ e hmem
      · rw [if_neg hseen]
        cases hcl : classify_link x with
        | none => exact ih _ _ e hmem
        | some q =>
          obtain ⟨nt, dn, doc, fx⟩ := q
          exact ih _ _ e hmem

/-- Keys present in the heap survive a whole build pass. -/
theorem build_mono (chains : List (List ChainLink)) :
    ∀ (s : CollectorState) (id : String),
      (lookupNode s.nodes id).isSome = true →
      (lookupNode (build_from_items s chains).nodes id).isSome = true := by
  induction chains with
  | nil => intro s id h; simpa [build_from_items] using h
  | cons c cs ih =>
    intro s id h
    simp only [build_from_items]
    exact ih _ _ (buildChain_mono c _ _ _ h)

/-- After a build pass every element of every chain is either skipped
or present in the heap. -/
theorem build_covers (chains : List (List ChainLink)) :
    ∀ (s : CollectorState), ∀ c ∈ chains, ∀ e ∈ c,
      classify_link e = none ∨
      (lookupNode (build_from_items s chains).nodes e.nodeid).isSome = true := by
  induction chains with
  | nil =>
    intro s c hc e he
    simp at hc
  | cons c0 cs ih =>
    intro s c hc e he
    simp only [build_from_items]
    rcases List.mem_cons.mp hc with rfl | hmem
    · rcases buildChain_covers c s none e he with hcl | hs
      · exact Or.inl hcl
      · exact Or.inr (build_mono cs _ _ hs)
    · exact ih _ c hmem e he

/-- A build pass over chains whose elements are all skipped or already
resolved leaves the state untouched. -/
theorem build_noop (chains : List (List ChainLink)) :
    ∀ (s : CollectorState),
      (∀ c ∈ chains, ∀ e ∈ c,
        classify_link e = none ∨ (lookupNode s.nodes e.nodeid).isSome = true) →
      build_from_items s chains = s := by
  induction chains with
  | nil => intro s _; rfl
  | cons c0 cs ih =>
    intro s h
    simp only [build_from_items]
    have h0 : buildChain s none c0 = s :=
      buildChain_noop c0 s none (fun e he => h c0 (List.mem_cons_self c0 cs) e he)
    rw [h0]
    exact ih s (fun c hc e he => h c (List.mem_cons_of_mem _ hc) e he)

/-- buildChain preserves uniqueness of heap keys. -/
theorem buildChain_nodup (chain : List ChainLink) :
    ∀ (s : CollectorState) (p : Option String),
      ((s.nodes.map (fun q => q.1)).Nodup) →
      (((buildChain s p chain).nodes.map (fun q => q.1)).Nodup) := by
  induction chain with
  | nil =>
    intro s p h
    simpa [buildChain] using h
  | cons e rest ih =>
    intro s p h
    simp only [buildChain]
    by_cases hseen : (lookupNode s.nodes e.nodeid).isSome = true
    · rw [if_pos hseen]
      exact ih _ _ h
    · rw [if_neg hseen]
      cases hcl : classify_link e with
      | none => exact ih _ _ h
      | some q =>
        obtain ⟨nt, dn, doc, fx⟩ := q
        refine ih _ _ ?_
        have hfresh : e.nodeid ∉ s.nodes.map (fun q => q.1) := fun hmem =>
          hseen ((lookupNode_isSome_iff s.nodes e.nodeid).mpr hmem)
        cases p with
        | some pid =>
          rw [keys_appendChild, List.map_append]
          exact nodup_keys_append_singleton _ _ h hfresh
        | none =>
          by_cases hnt : nt = NodeType.FILE
          · simp only [if_pos hnt]
            rw [List.map_append]
            exact nodup_keys_append_singleton _ _ h hfresh
          · simp only [if_neg hnt]
            rw [List.map_append]
            exact nodup_keys_append_singleton _ _ h hfresh

/-- Build preserves uniqueness of heap keys. -/
theorem build_nodup (chains : List (List ChainLink)) :
    ∀ (s : CollectorState),
      ((s.nodes.map (fun q => q.1)).Nodup) →
      (((build_from_items s chains).nodes.map (fun q => q.1)).Nodup) := by
  induction chains with
  | nil => intro s h; simpa [build_from_items] using h
  | cons c cs ih =>
    intro s h
    simp only [build_from_items]
    exact ih _ (buildChain_nodup c _ _ h)

theorem filterMap_congr_mem {α β : Type} (l : List α) (f g : α → Option β)
    (h : ∀ a ∈ l, f a = g a) : l.filterMap f = l.filterMap g := by
  induction l with
  | nil => rfl
  | cons a l ih =>
    rw [List.filterMap_cons, List.filterMap_cons, h a (List.mem_cons_self a l),
      ih (fun b hb => h b (List.mem_cons_of_mem _ hb))]

/-- Anything the depth-first search returns was on the initial stack
or inside a stored children list, and resolves to a node carrying the
target identifier. -/
theorem findDFS_some_mem (ns : List (String × StoredNode)) (target : String) :
    ∀ (fuel : Nat) (stack : List String) (k : String),
      findDFS ns target fuel stack = some k →
      (k ∈ stack ∨ ∃ p ∈ ns, k ∈ p.2.children)
      ∧ ∃ n, lookupNode ns k = some n ∧ n.nodeid = target := by
  intro fuel
  induction fuel with
  | zero => intro stack k h; simp [findDFS] at h
  | succ fuel ih =>
    intro stack k h
    cases stack with
    | nil => simp [findDFS] at h
    | cons nid rest =>
      cases hl : lookupNode ns nid with
      | none =>
        simp only [findDFS, hl] at h
        have hr := ih rest k h
        exact ⟨hr.1.elim (fun hm => Or.inl (List.mem_cons_of_mem _ hm)) Or.inr, hr.2⟩
      | some n =>
        simp only [findDFS, hl] at h
        by_cases hm : n.nodeid = target
        · rw [if_pos hm] at h
          cases h
          exact ⟨Or.inl (List.mem_cons_self _ _), n, hl, hm⟩
        · rw [if_neg hm] at h
          have hr := ih _ k h
          refine ⟨?_, hr.2⟩
          rcases hr.1 with hm2 | hm2
          · rcases List.mem_append.mp hm2 with hc | hc
            · exact Or.inr ⟨(nid, n), lookupNode_mem ns nid n hl, hc⟩
            · exact Or.inl (List.mem_cons_of_mem _ hc)
          · exact Or.inr hm2

/-- An orphan identifier is invisible to the depth-first search from
the roots, whatever the fuel. -/
theorem orphan_find_none (s : CollectorState) (id : String)
    (hfields : fieldsOK s.nodes) (ho : Orphan s id) :
    ∀ fuel, findDFS s.nodes id fuel s.roots = none := by
  intro fuel
  cases hfind : findDFS s.nodes id fuel s.roots with
  | none => rfl
  | some k =>
    exfalso
    obtain ⟨hmem, n, hn, hnid⟩ := findDFS_some_mem s.nodes id fuel s.roots k hfind
    have hk : n.nodeid = k := hfields (k, n) (lookupNode_mem s.nodes k n hn)
    have hki : k = id := hk ▸ hnid
    subst hki
    rcases hmem with hm | ⟨p, hp, hc⟩
    · exact ho.1 hm
    · exact ho.2 p hp hc

/-- Membership characterisation of appendChild: every entry comes
from an entry of the original heap, with the same key, nodeid and
result, and with at most the child key appended. -/
theorem mem_appendChild (ns : List (String × StoredNode)) (pid cid : String)
    (q : String × StoredNode) (hq : q ∈ appendChild ns pid cid) :
    ∃ p ∈ ns, q.1 = p.1 ∧ q.2.nodeid = p.2.nodeid ∧ q.2.result = p.2.result ∧
      (q.2.children = p.2.children ∨ q.2.children = p.2.children ++ [cid]) := by
  have hq2 : q ∈ ns.map (fun p =>
      if p.1 = pid then (p.1, { p.2 with children := p.2.children ++ [cid] }) else p) := hq
  obtain ⟨p, hp, hqe⟩ := List.mem_map.mp hq2
  by_cases hpk : p.1 = pid
  · refine ⟨p, hp, ?_, ?_, ?_, Or.inr ?_⟩ <;> rw [← hqe] <;> simp [hpk]
  · refine ⟨p, hp, ?_, ?_, ?_, Or.inl ?_⟩ <;> rw [← hqe] <;> simp [hpk]

/-- Membership characterisation of setResult: keys, nodeids and
children lists are untouched. -/
theorem mem_setResult (ns : List (String × StoredNode)) (key : String)
    (newRes : TestResult) (q : String × StoredNode) (hq : q ∈ setResult ns key newRes) :
    ∃ p ∈ ns, q.1 = p.1 ∧ q.2.nodeid = p.2.nodeid ∧ q.2.children = p.2.children := by
  have hq2 : q ∈ ns.map (fun p =>
      if p.1 = key then (p.1, { p.2 with result := some newRes }) else p) := hq
  obtain ⟨p, hp, hqe⟩ := List.mem_map.mp hq2
  by_cases hpk : p.1 = key
  · refine ⟨p, hp, ?_, ?_, ?_⟩ <;> rw [← hqe] <;> simp [hpk]
  · refine ⟨p, hp, ?_, ?_, ?_⟩ <;> rw [← hqe] <;> simp [hpk]

theorem fieldsOK_append (ns ms : List (String × StoredNode))
    (h1 : fieldsOK ns) (h2 : fieldsOK ms) : fieldsOK (ns ++ ms) := by
  intro p hp
  rcases List.mem_append.mp hp with h | h
  · exact h1 p h
  · exact h2 p h

theorem fieldsOK_appendChild (ns : List (String × StoredNode)) (pid cid : String)
    (h : fieldsOK ns) : fieldsOK (appendChild ns pid cid) := by
  intro q hq
  obtain ⟨p, hp, h1, h2, _, _⟩ := mem_appendChild ns pid cid q hq
  rw [h1, h2]
  exact h p hp

theorem fieldsOK_setResult (ns : List (String × StoredNode)) (key : String)
    (newRes : TestResult) (h : fieldsOK ns) : fieldsOK (setResult ns key newRes) := by
  intro q hq
  obtain ⟨p, hp, h1, h2, _⟩ := mem_setResult ns key newRes q hq
  rw [h1, h2]
  exact h p hp

/-- A single fresh non-FILE element builds exactly one orphan heap
entry and leaves the roots alone. -/
theorem buildChain_single_create (s : CollectorState) (e : ChainLink) (nt : NodeType)
    (dn doc : String) (fx : List String)
    (hfresh : lookupNode s.nodes e.nodeid = none)
    (hcl : classify_link e = some (nt, dn, doc, fx))
    (hnf : nt ≠ NodeType.FILE) :
    buildChain s none [e] =
      { s with nodes := s.nodes ++ [(e.nodeid, newNodeFor e nt dn doc fx)] } := by
  simp only [buildChain]
  rw [if_neg (by simp [hfresh])]
  rw [hcl]
  simp [hnf, buildChain]

/-- buildChain never parents an existing identifier: an orphan stays
an orphan. -/
theorem buildChain_orphan (chain : List ChainLink) :
    ∀ (s : CollectorState) (p : Option String) (id : String),
      (lookupNode s.nodes id).isSome = true → Orphan s id →
      Orphan (buildChain s p chain) id := by
  induction chain with
  | nil =>
    intro s p id _ ho
    simpa [buildChain] using ho
  | cons e rest ih =>
    intro s p id hm ho
    simp only [buildChain]
    by_cases hseen : (lookupNode s.nodes e.nodeid).isSome = true
    · rw [if_pos hseen]
      exact ih _ _ _ hm ho
    · rw [if_neg hseen]
      cases hcl : classify_link e with
      | none => exact ih _ _ _ hm ho
      | some q =>
        obtain ⟨nt, dn, doc, fx⟩ := q
        have hne : ¬ e.nodeid = id := fun hh => hseen (hh.symm ▸ hm)
        have hbase : ∀ qq ∈ s.nodes ++ [(e.nodeid, newNodeFor e nt dn doc fx)],
            id ∉ qq.2.children := by
          intro qq hqq
          rcases List.mem_append.mp hqq with hin | hnew
          · exact ho.2 qq hin
          · simp at hnew
            rw [hnew]
            simp [newNodeFor]
        cases p with
        | some pid =>
          refine ih _ _ _ ?_ ?_
          · exact lookupNode_appendChild_isSome _ _ _ _ (lookupNode_append_isSome_left _ _ _ hm)
          · constructor
            · exact ho.1
            · intro q hq
              obtain ⟨pp, hpp, _, _, _, hch⟩ := mem_appendChild _ _ _ q hq
              have hidpp : id ∉ pp.2.children := hbase pp hpp
              rcases hch with hc | hc
              · rw [hc]; exact hidpp
              · rw [hc]
                intro hmm
                rcases List.mem_append.mp hmm with h1 | h1
                · exact hidpp h1
                · simp at h1
                  exact hne h1.symm
        | none =>
          by_cases hnt : nt = NodeType.FILE
          · simp only [if_pos hnt]
            refine ih _ _ _ ?_ ?_
            · exact lookupNode_append_isSome_left _ _ _ hm
            · constructor
              · intro hmm
                rcases List.mem_append.mp hmm with h1 | h1
                · exact ho.1 h1
                · simp at h1
                  exact hne h1.symm
              · exact hbase
          · simp only [if_neg hnt]
            refine ih _ _ _ ?_ ?_
            · exact lookupNode_append_isSome_left _ _ _ hm
            · exact ⟨ho.1, hbase⟩

/-- buildChain keeps nodeid fields equal to heap keys. -/
theorem buildChain_fields (chain : List ChainLink) :
    ∀ (s : CollectorState) (p : Option String),
      fieldsOK s.nodes → fieldsOK (buildChain s p chain).nodes := by
  induction chain with
  | nil =>
    intro s p h
    simpa [buildChain] using h
  | cons e rest ih =>
    intro s p h
    simp only [buildChain]
    by_cases hseen : (lookupNode s.nodes e.nodeid).isSome = true
    · rw [if_pos hseen]
      exact ih _ _ h
    · rw [if_neg hseen]
      cases hcl : classify_link e with
      | none => exact ih _ _ h
      | some q =>
        obtain ⟨nt, dn, doc, fx⟩ := q
        have hbase : fieldsOK (s.nodes ++ [(e.nodeid, newNodeFor e nt dn doc fx)]) := by
          refine fieldsOK_append _ _ h ?_
          intro p hp
          simp at hp
          rw [hp]
          rfl
        cases p with
        | some pid => exact ih _ _ (fieldsOK_appendChild _ _ _ hbase)
        | none =>
          by_cases hnt : nt = NodeType.FILE
          · simp only [if_pos hnt]
            exact ih _ _ hbase
          · simp only [if_neg hnt]
            exact ih _ _ hbase

/-- buildChain preserves every existing entry, up to appended
children: result, node type and nodeid never change. -/
theorem buildChain_entry (chain : List ChainLink) :
    ∀ (s : CollectorState) (p : Option String) (id : String) (n : StoredNode),
      lookupNode s.nodes id = some n →
      ∃ n2, lookupNode (buildChain s p chain).nodes id = some n2 ∧
        n2.result = n.result ∧ n2.node_type = n.node_type ∧ n2.nodeid = n.nodeid := by
  induction chain with
  | nil =>
    intro s p id n h
    exact ⟨n, by simpa [buildChain] using h, rfl, rfl, rfl⟩
  | cons e rest ih =>
    intro s p id n h
    simp only [buildChain]
    by_cases hseen : (lookupNode s.nodes e.nodeid).isSome = true
    · rw [if_pos hseen]
      exact ih _ _ _ _ h
    · rw [if_neg hseen]
      cases hcl : classify_link e with
      | none => exact ih _ _ _ _ h
      | some q =>
        obtain ⟨nt, dn, doc, fx⟩ := q
        have hbase : lookupNode (s.nodes ++ [(e.nodeid, newNodeFor e nt dn doc fx)]) id = some n := by
          rw [lookupNode_append, h]
        cases p with
        | some pid =>
          by_cases hpid : id = pid
          · subst hpid
            obtain ⟨n2, hn2, he1, he2, he3⟩ := ih
              ({ s with nodes := appendChild (s.nodes ++ [(e.nodeid, newNodeFor e nt dn doc fx)]) id e.nodeid } : CollectorState)
              (some e.nodeid) id { n with children := n.children ++ [e.nodeid] }
              (by { show lookupNode (appendChild (s.nodes ++ [(e.nodeid, newNodeFor e nt dn doc fx)]) id e.nodeid) id = _ ;
                    rw [lookupNode_appendChild_self, hbase] ; rfl })
            exact ⟨n2, hn2, he1, he2, he3⟩
          · obtain ⟨n2, hn2, he1, he2, he3⟩ := ih
              ({ s with nodes := appendChild (s.nodes ++ [(e.nodeid, newNodeFor e nt dn doc fx)]) pid e.nodeid } : CollectorState)
              (some e.nodeid) id n
              (by { show lookupNode (appendChild (s.nodes ++ [(e.nodeid, newNodeFor e nt dn doc fx)]) pid e.nodeid) id = _ ;
                    rw [lookupNode_appendChild_ne _ _ _ _ hpid] ; exact hbase })
            exact ⟨n2, hn2, he1, he2, he3⟩
        | none =>
          by_cases hnt : nt = NodeType.FILE
          · simp only [if_pos hnt]
            exact ih _ _ _ _ hbase
          · simp only [if_neg hnt]
            exact ih _ _ _ _ hbase

/-- Build-pass version of buildChain_orphan. -/
theorem build_orphan (chains : List (List ChainLink)) :
    ∀ (s : CollectorState) (id : String),
      (lookupNode s.nodes id).isSome = true → Orphan s id →
      Orphan (build_from_items s chains) id := by
  induction chains with
  | nil => intro s id _ ho; simpa [build_from_items] using ho
  | cons c cs ih =>
    intro s id hm ho
    simp only [build_from_items]
    exact ih _ _ (buildChain_mono c _ _ _ hm) (buildChain_orphan c _ _ _ hm ho)

/-- Build-pass version of buildChain_fields. -/
theorem build_fields (chains : List (List ChainLink)) :
    ∀ (s : CollectorState), fieldsOK s.nodes → fieldsOK (build_from_items s chains).nodes := by
  induction chains with
  | nil => intro s h; simpa [build_from_items] using h
  | cons c cs ih =>
    intro s h
    simp only [build_from_items]
    exact ih _ (buildChain_fields c _ _ h)

/-- Build-pass version of buildChain_entry. -/
theorem build_entry (chains : List (List ChainLink)) :
    ∀ (s : CollectorState) (id : String) (n : StoredNode),
      lookupNode s.nodes id = some n →
      ∃ n2, lookupNode (build_from_items s chains).nodes id = some n2 ∧
        n2.result = n.result ∧ n2.node_type = n.node_type ∧ n2.nodeid = n.nodeid := by
  induction chains with
  | nil =>
    intro s id n h
    exact ⟨n, by simpa [build_from_items] using h, rfl, rfl, rfl⟩
  | cons c cs ih =>
    intro s id n h
    simp only [build_from_items]
    obtain ⟨n1, hn1, e1, e2, e3⟩ := buildChain_entry c s none id n h
    obtain ⟨n2, hn2, f1, f2, f3⟩ := ih _ _ _ hn1
    exact ⟨n2, hn2, f1.trans e1, f2.trans e2, f3.trans e3⟩

/-- Materialisation never reads an entry that no children list
references and the walk does not start from. -/
theorem matNode_erase (ns : List (String × StoredNode)) (o : String)
    (hch : ∀ p ∈ ns, o ∉ p.2.children) :
    ∀ (fuel : Nat) (nid : String), ¬ nid = o →
      matNode ns fuel nid = matNode (ns.filter (fun p => !(p.1 == o))) fuel nid := by
  intro fuel
  induction fuel with
  | zero => intro nid _; rfl
  | succ fuel ih =>
    intro nid hnid
    simp only [matNode]
    rw [lookupNode_filter_ne ns o nid hnid]
    cases hl : lookupNode ns nid with
    | none => rfl
    | some n =>
      have hcho : o ∉ n.children := hch (nid, n) (lookupNode_mem ns nid n hl)
      have hcong : n.children.filterMap (fun c => matNode ns fuel c) =
          n.children.filterMap (fun c => matNode (ns.filter (fun p => !(p.1 == o))) fuel c) := by
        refine filterMap_congr_mem _ _ _ ?_
        intro c hc
        exact ih c (fun hh => hcho (hh ▸ hc))
      simp only [hl, hcong]

/-- The materialised forest of a state with an orphan equals the one
of the state with the orphan entry erased: the orphan contributes to
no tree-level aggregate. -/
theorem matForest_erase (s : CollectorState) (o : String) (ho : Orphan s o) :
    ∀ fuel, matForest s fuel = matForest (eraseKey s o) fuel := by
  intro fuel
  unfold matForest eraseKey
  refine filterMap_congr_mem _ _ _ ?_
  intro root hroot
  exact matNode_erase s.nodes o ho.2 fuel root (fun hh => ho.1 (hh ▸ hroot))

theorem update_noop_of_find_none (s : CollectorState) (r : Report)
    (hf : find_by_nodeid s r.nodeid = none) : update_from_report s r = s := by
  unfold update_from_report
  simp [hf]

theorem update_noop_of_lookup_none (s : CollectorState) (r : Report) (key : String)
    (hf : find_by_nodeid s r.nodeid = some key)
    (hl : lookupNode s.nodes key = none) : update_from_report s r = s := by
  unfold update_from_report
  simp [hf, hl]

theorem update_noop_of_result_none (s : CollectorState) (r : Report) (key : String)
    (n : StoredNode)
    (hf : find_by_nodeid s r.nodeid = some key)
    (hl : lookupNode s.nodes key = some n)
    (hres : n.result = none) : update_from_report s r = s := by
  unfold update_from_report
  simp [hf, hl, hres]

/-- Every update either leaves the state untouched or rewrites the
result of one node found by the depth-first search from the roots. -/
theorem update_cases (s : CollectorState) (r : Report) :
    update_from_report s r = s ∨
    ∃ key newRes, find_by_nodeid s r.nodeid = some key ∧
      update_from_report s r = { s with nodes := setResult s.nodes key newRes } := by
  cases hf : find_by_nodeid s r.nodeid with
  | none => exact Or.inl (update_noop_of_find_none s r hf)
  | some key =>
    cases hl : lookupNode s.nodes key with
    | none => exact Or.inl (update_noop_of_lookup_none s r key hf hl)
    | some n =>
      cases hres : n.result with
      | none => exact Or.inl (update_noop_of_result_none s r key n hf hl hres)
      | some res =>
        by_cases h1 : (r.phase == "call") = true
        · refine Or.inr ⟨key, applyCall res r, rfl, ?_⟩
          simp [update_from_report, h1, hf, hl, hres]
        · by_cases h2 : ((r.phase == "setup" || r.phase == "teardown") && r.failed) = true
          · refine Or.inr ⟨key, applySetupTeardownFailed res r, rfl, ?_⟩
            simp [update_from_report, h1, h2, hf, hl, hres]
          · by_cases h3 : ((r.phase == "setup") && r.skipped) = true
            · refine Or.inr ⟨key, applySetupSkipped res r, rfl, ?_⟩
              simp [update_from_report, h1, h2, h3, hf, hl, hres]
            · refine Or.inl ?_
              simp [update_from_report, h1, h2, h3]

/-- One update never touches an orphan entry: the node the search
finds lies under the roots, and the orphan does not. -/
theorem update_preserves_orphan_entry (s : CollectorState) (r : Report) (id : String)
    (n : StoredNode) (hfields : fieldsOK s.nodes) (ho : Orphan s id)
    (hl : lookupNode s.nodes id = some n) :
    lookupNode (update_from_report s r).nodes id = some n
    ∧ Orphan (update_from_report s r) id
    ∧ fieldsOK (update_from_report s r).nodes := by
  rcases update_cases s r with heq | ⟨key, newRes, hf, heq⟩
  · rw [heq]
    exact ⟨hl, ho, hfields⟩
  · have hkey := (findDFS_some_mem s.nodes r.nodeid (stateFuel s) s.roots key hf).1
    have hne : ¬ id = key := by
      intro hh
      subst hh
      rcases hkey with hk | ⟨p, hp, hc⟩
      · exact ho.1 hk
      · exact ho.2 p hp hc
    rw [heq]
    refine ⟨?_, ⟨ho.1, ?_⟩, fieldsOK_setResult _ _ _ hfields⟩
    · rw [show ({ s with nodes := setResult s.nodes key newRes } : CollectorState).nodes =
          setResult s.nodes key newRes from rfl]
      rw [lookupNode_setResult_ne _ _ _ _ hne]
      exact hl
    · intro q hq
      obtain ⟨p, hp, _, _, hch⟩ := mem_setResult _ _ _ q hq
      rw [hch]
      exact ho.2 p hp

/-- A whole stream of updates never touches an orphan entry. -/
theorem updates_preserve_orphan_entry (reports : List Report) :
    ∀ (s : CollectorState) (id : String) (n : StoredNode),
      fieldsOK s.nodes → Orphan s id → lookupNode s.nodes id = some n →
      lookupNode (reports.foldl update_from_report s).nodes id = some n
      ∧ Orphan (reports.foldl update_from_report s) id
      ∧ fieldsOK (reports.foldl update_from_report s).nodes := by
  induction reports with
  | nil => intro s id n hf ho hl; exact ⟨hl, ho, hf⟩
  | cons r rest ih =>
    intro s id n hf ho hl
    simp only [List.foldl_cons]
    obtain ⟨h1, h2, h3⟩ := update_preserves_orphan_entry s r id n hf ho hl
    exact ih _ _ _ h3 h2 h1


/-! ### Claims -/

/-- C1, counterexample: a link with the grouping shape that is not a
describe block and exposes both a path and the location-info
capability reportinfo (a pytest Module) is classified FILE by the
code, while the claim classifies every such link as Skip; and the
session link, which has a path but no reportinfo, is classified Skip
by the code while the claim classifies every non-Skip path-bearing
link as FILE. -/
theorem C1_counterexample :
    (exModuleLink.has_fspath && exModuleLink.has_collect) = true
    ∧ exModuleLink.is_describe_block = false
    ∧ exModuleLink.has_reportinfo = true
    ∧ classify_link exModuleLink = some (NodeType.FILE, "f.py", "", [])
    ∧ classify_link exModuleLink ≠ none
    ∧ (exSessionLink.has_fspath && exSessionLink.has_collect) = true
    ∧ exSessionLink.is_describe_block = false
    ∧ exSessionLink.has_path = true
    ∧ classify_link exSessionLink = none := by
  decide

/-- C1, amended: for every chain element with both a path attribute
and a collect capability that is not recognised as a describe block:
if it exposes a path-like attribute but lacks the location-info
capability it is classified Skip (the top-level session container);
if it exposes a path-like attribute together with location info it is
classified FILE with display name equal to the raw name and an empty
docstring; and with no path-like attribute it is Skip. -/
theorem C1_classify_file_or_skip (link : ChainLink)
    (h1 : (link.has_fspath && link.has_collect) = true)
    (h2 : link.is_describe_block = false) :
    (link.has_path = true → link.has_reportinfo = false → classify_link link = none)
    ∧ (link.has_path = true → link.has_reportinfo = true →
        classify_link link = some (NodeType.FILE, link.name, "", []))
    ∧ (link.has_path = false → classify_link link = none) := by
  refine ⟨fun hp hr => ?_, fun hp hr => ?_, fun hp => ?_⟩ <;>
    simp [classify_link, h1, h2, hp, *]

/-- C1, witness for the amended theorem at the Module and Session
links. -/
theorem C1_witness :
    classify_link exModuleLink = some (NodeType.FILE, exModuleLink.name, "", [])
    ∧ classify_link exSessionLink = none := by
  refine ⟨(C1_classify_file_or_skip exModuleLink (by decide) (by decide)).2.1 (by decide) (by decide), ?_⟩
  exact (C1_classify_file_or_skip exSessionLink (by decide) (by decide)).1 (by decide) (by decide)

/-- C4: the pure outcome mapping.  The expected-failure marker takes
precedence over the failed and skipped flags and yields XPASSED when
passed is set, XFAILED otherwise; without the marker, passed gives
PASSED, else failed gives FAILED, else skipped gives SKIPPED, else
PENDING. -/
theorem C4_map_outcome (r : Report) :
    (r.wasxfail = true → r.passed = true → map_outcome r = TestOutcome.XPASSED)
    ∧ (r.wasxfail = true → r.passed = false → map_outcome r = TestOutcome.XFAILED)
    ∧ (r.wasxfail = false → r.passed = true → map_outcome r = TestOutcome.PASSED)
    ∧ (r.wasxfail = false → r.passed = false → r.failed = true →
        map_outcome r = TestOutcome.FAILED)
    ∧ (r.wasxfail = false → r.passed = false → r.failed = false → r.skipped = true →
        map_outcome r = TestOutcome.SKIPPED)
    ∧ (r.wasxfail = false → r.passed = false → r.failed = false → r.skipped = false →
        map_outcome r = TestOutcome.PENDING) := by
  refine ⟨?_, ?_, ?_, ?_, ?_, ?_⟩ <;> intros <;> simp [map_outcome, *]

/-- C4, witness: the marker beats a failed flag at a concrete
expected-failure report. -/
theorem C4_witness :
    map_outcome { nodeid := "t1", phase := "call", passed := false, failed := true,
                  skipped := false, wasxfail := true, duration := 0,
                  longreprtext := none, sections := [] } = TestOutcome.XFAILED :=
  (C4_map_outcome _).2.1 rfl rfl

/-- C9: the describe-name humanizer strips one of the two prefix
spellings; an empty remainder returns the full original string; a
remainder starting with an upper-case letter and containing no
underscore is returned unchanged; otherwise every underscore becomes
a space.  The three concrete examples of the claim close the
conjunction. -/
theorem C9_humanize_describe (name : String) :
    (stripDescribe name.toList = [] → humanize_describe_name name = name)
    ∧ (∀ c cs, stripDescribe name.toList = c :: cs →
        c.isUpper = true → (c :: cs).contains '_' = false →
        humanize_describe_name name = String.mk (c :: cs))
    ∧ (∀ c cs, stripDescribe name.toList = c :: cs →
        (c.isUpper = false ∨ (c :: cs).contains '_' = true) →
        humanize_describe_name name = String.mk (replaceChar (c :: cs) '_' ' '))
    ∧ humanize_describe_name "describe_MyClass" = "MyClass"
    ∧ humanize_describe_name "describe_my_feature" = "my feature"
    ∧ humanize_describe_name "describe_" = "describe_" := by
  refine ⟨?_, ?_, ?_, by decide, by decide, by decide⟩
  · intro h
    rw [String.toList] at h
    simp [humanize_describe_name, String.toList, h]
  · intro c cs h hu hn
    rw [String.toList] at h
    have hn2 : ¬ ('_' ∈ c :: cs) := by simpa using hn
    simp [humanize_describe_name, String.toList, h, hu, hn2]
  · intro c cs h hd
    rw [String.toList] at h
    rcases hd with hd | hd
    · simp [humanize_describe_name, String.toList, h, hd]
    · have hd2 : '_' ∈ c :: cs := by simpa using hd
      simp [humanize_describe_name, String.toList, h, hd2]

/-- C9, witness: the snake-case branch at a concrete input. -/
theorem C9_witness :
    humanize_describe_name "describe_my_other_feature" = String.mk (replaceChar ("my_other_feature".toList) '_' ' ') := by
  have h := (C9_humanize_describe "describe_my_other_feature").2.2.1
  exact h 'm' "y_other_feature".toList (by decide) (Or.inr (by decide))

/-- C2: for every non-TEST node the composite outcome follows the
exact precedence over the children overall outcomes, and the
particular multisets of the claim evaluate as stated: FAILED with
XPASSED gives FAILED, XPASSED with PASSED gives XPASSED, PASSED with
SKIPPED gives PASSED, a single XFAILED child gives PASSED, and empty
children give PENDING. -/
theorem C2_overall_outcome (n : DescribeNode) (h : n.node_type ≠ NodeType.TEST) :
    DescribeNode.overall_outcome n =
      outcomePrecedence (n.children.map DescribeNode.overall_outcome)
    ∧ DescribeNode.overall_outcome (exGroupNode []) = TestOutcome.PENDING
    ∧ DescribeNode.overall_outcome
        (exGroupNode [exTestNode "a" TestOutcome.FAILED, exTestNode "b" TestOutcome.XPASSED]) =
        TestOutcome.FAILED
    ∧ DescribeNode.overall_outcome
        (exGroupNode [exTestNode "a" TestOutcome.XPASSED, exTestNode "b" TestOutcome.PASSED]) =
        TestOutcome.XPASSED
    ∧ DescribeNode.overall_outcome
        (exGroupNode [exTestNode "a" TestOutcome.SKIPPED, exTestNode "b" TestOutcome.SKIPPED]) =
        TestOutcome.SKIPPED
    ∧ DescribeNode.overall_outcome
        (exGroupNode [exTestNode "a" TestOutcome.PENDING, exTestNode "b" TestOutcome.PENDING]) =
        TestOutcome.PENDING
    ∧ DescribeNode.overall_outcome
        (exGroupNode [exTestNode "a" TestOutcome.PASSED, exTestNode "b" TestOutcome.SKIPPED]) =
        TestOutcome.PASSED
    ∧ DescribeNode.overall_outcome (exGroupNode [exTestNode "a" TestOutcome.XFAILED]) =
        TestOutcome.PASSED := by
  refine ⟨?_, by decide, by decide, by decide, by decide, by decide, by decide, by decide⟩
  cases n with
  | mk nm dn t ni doc cs r =>
    simp only [DescribeNode.node_type] at h
    simp only [DescribeNode.overall_outcome, DescribeNode.children,
      overall_outcome_list_eq_map, outcomePrecedence]
    simp [h]

/-- C2, witness at a concrete non-TEST node. -/
theorem C2_witness :
    DescribeNode.overall_outcome (exGroupNode [exTestNode "a" TestOutcome.PASSED]) =
      outcomePrecedence ((exGroupNode [exTestNode "a" TestOutcome.PASSED]).children.map
        DescribeNode.overall_outcome) :=
  (C2_overall_outcome (exGroupNode [exTestNode "a" TestOutcome.PASSED]) (by decide)).1

/-- C8: the recursive aggregation laws.  testCount is 1 on a TEST node
and the sum over children otherwise; passedCount, failedCount (FAILED
or ERROR), skippedCount and aggregateDuration satisfy the analogous
laws, with a missing Result counting 0. -/
theorem C8_aggregation (n : DescribeNode) :
    (n.node_type = NodeType.TEST →
      DescribeNode.test_count n = 1
      ∧ (∀ res, n.result = some res →
          DescribeNode.passed_count n = (if res.outcome = TestOutcome.PASSED then 1 else 0)
          ∧ DescribeNode.failed_count n =
              (if res.outcome = TestOutcome.FAILED ∨ res.outcome = TestOutcome.ERROR then 1 else 0)
          ∧ DescribeNode.skipped_count n = (if res.outcome = TestOutcome.SKIPPED then 1 else 0)
          ∧ DescribeNode.aggregate_duration n = res.duration)
      ∧ (n.result = none →
          DescribeNode.passed_count n = 0
          ∧ DescribeNode.failed_count n = 0
          ∧ DescribeNode.skipped_count n = 0
          ∧ DescribeNode.aggregate_duration n = 0))
    ∧ (n.node_type ≠ NodeType.TEST →
      DescribeNode.test_count n = (n.children.map DescribeNode.test_count).sum
      ∧ DescribeNode.passed_count n = (n.children.map DescribeNode.passed_count).sum
      ∧ DescribeNode.failed_count n = (n.children.map DescribeNode.failed_count).sum
      ∧ DescribeNode.skipped_count n = (n.children.map DescribeNode.skipped_count).sum
      ∧ DescribeNode.aggregate_duration n =
          (n.children.map DescribeNode.aggregate_duration).sum) := by
  cases n with
  | mk nm dn t ni doc cs r =>
    constructor
    · intro ht
      simp only [DescribeNode.node_type] at ht
      refine ⟨by simp [DescribeNode.test_count, ht], ?_, ?_⟩
      · intro res hres
        simp only [DescribeNode.result] at hres
        refine ⟨?_, ?_, ?_, ?_⟩ <;>
          simp [DescribeNode.passed_count, DescribeNode.failed_count,
            DescribeNode.skipped_count, DescribeNode.aggregate_duration, ht, hres]
      · intro hres
        simp only [DescribeNode.result] at hres
        refine ⟨?_, ?_, ?_, ?_⟩ <;>
          simp [DescribeNode.passed_count, DescribeNode.failed_count,
            DescribeNode.skipped_count, DescribeNode.aggregate_duration, ht, hres]
    · intro ht
      simp only [DescribeNode.node_type] at ht
      refine ⟨?_, ?_, ?_, ?_, ?_⟩ <;>
        simp [DescribeNode.test_count, DescribeNode.passed_count,
          DescribeNode.failed_count, DescribeNode.skipped_count,
          DescribeNode.aggregate_duration, DescribeNode.children, ht,
          test_count_list_eq_sum, passed_count_list_eq_sum, failed_count_list_eq_sum,
          skipped_count_list_eq_sum, aggregate_duration_list_eq_sum]

/-- C7: a result event whose identifier resolves to no node, or to a
node without a Result, is a strict no-op: update never raises (it is
a total function), creates no node, and returns the state unchanged,
roots included. -/
theorem C7_unknown_target_noop (s : CollectorState) (r : Report)
    (h : ∀ key, find_by_nodeid s r.nodeid = some key →
          ∀ n, lookupNode s.nodes key = some n → n.result = none) :
    update_from_report s r = s := by
  cases hf : find_by_nodeid s r.nodeid with
  | none => exact update_noop_of_find_none s r hf
  | some key =>
    cases hl : lookupNode s.nodes key with
    | none => exact update_noop_of_lookup_none s r key hf hl
    | some n => exact update_noop_of_result_none s r key n hf hl (h key hf n hl)

/-- C7, witness: an event for an identifier absent from the example
tree leaves the state untouched. -/
theorem C7_witness : update_from_report exState exReportUnknown = exState := by
  refine C7_unknown_target_noop exState exReportUnknown ?_
  intro key hk n hn
  rw [(by decide : find_by_nodeid exState exReportUnknown.nodeid = none)] at hk
  exact Option.noConfusion hk

/-- C5: a call-phase event on a found TEST node with a Result sets
the outcome to the outcome mapping of the event and the duration to
the event duration, overwrites the sections wholesale with the event
sections (empty when the event has none), overwrites the long
description only when the event carries a non-empty one, and touches
nothing else. -/
theorem C5_call_event (s : CollectorState) (r : Report) (key : String) (n : StoredNode)
    (res : TestResult)
    (hphase : r.phase = "call")
    (hfind : find_by_nodeid s r.nodeid = some key)
    (hlook : lookupNode s.nodes key = some n)
    (hres : n.result = some res) :
    update_from_report s r = { s with nodes := setResult s.nodes key (applyCall res r) }
    ∧ (applyCall res r).outcome = map_outcome r
    ∧ (applyCall res r).duration = r.duration
    ∧ (applyCall res r).sections = r.sections
    ∧ (longreprTruthy r = true → (applyCall res r).longrepr = longreprValue r)
    ∧ (longreprTruthy r = false → (applyCall res r).longrepr = res.longrepr)
    ∧ (applyCall res r).fixture_names = res.fixture_names := by
  refine ⟨?_, rfl, rfl, ?_, fun h => by simp [applyCall, h], fun h => by simp [applyCall, h], rfl⟩
  · simp [update_from_report, hphase, hfind, hlook, hres]
  · by_cases he : r.sections.isEmpty
    · simp [applyCall, he, List.isEmpty_iff.mp he]
    · simp [applyCall, he]

/-- C5, witness: the call report on t1 of the example tree, whose
empty longreprtext does not erase the stored description. -/
theorem C5_witness :
    update_from_report exState exReportCall =
      { exState with nodes := setResult exState.nodes "t1" (applyCall exT1Res exReportCall) }
    ∧ (applyCall exT1Res exReportCall).longrepr = exT1Res.longrepr :=
  ⟨(C5_call_event exState exReportCall "t1" exT1StoredNode exT1Res rfl
      (by decide) (by decide) (by decide)).1,
   (C5_call_event exState exReportCall "t1" exT1StoredNode exT1Res rfl
      (by decide) (by decide) (by decide)).2.2.2.2.2.1 (by decide)⟩

/-- C3: a setup or teardown event with the failed flag, on a found
TEST node with a Result, forces the outcome to ERROR with no regard
to the expected-failure marker, sets the duration to the event
duration, and overwrites the long description only when the event
carries a non-empty one; sections and fixture names are untouched. -/
theorem C3_setup_teardown_failed (s : CollectorState) (r : Report) (key : String)
    (n : StoredNode) (res : TestResult)
    (hphase : r.phase = "setup" ∨ r.phase = "teardown")
    (hfail : r.failed = true)
    (hfind : find_by_nodeid s r.nodeid = some key)
    (hlook : lookupNode s.nodes key = some n)
    (hres : n.result = some res) :
    update_from_report s r =
      { s with nodes := setResult s.nodes key (applySetupTeardownFailed res r) }
    ∧ (applySetupTeardownFailed res r).outcome = TestOutcome.ERROR
    ∧ (applySetupTeardownFailed res r).duration = r.duration
    ∧ (longreprTruthy r = true →
        (applySetupTeardownFailed res r).longrepr = longreprValue r)
    ∧ (longreprTruthy r = false →
        (applySetupTeardownFailed res r).longrepr = res.longrepr)
    ∧ (applySetupTeardownFailed res r).sections = res.sections
    ∧ (applySetupTeardownFailed res r).fixture_names = res.fixture_names := by
  have hc : (r.phase == "call") = false := by
    rcases hphase with h | h <;> simp [h]
  have hst : ((r.phase == "setup" || r.phase == "teardown") && r.failed) = true := by
    rcases hphase with h | h <;> simp [h, hfail]
  refine ⟨?_, rfl, rfl, fun h => by simp [applySetupTeardownFailed, h],
    fun h => by simp [applySetupTeardownFailed, h], rfl, rfl⟩
  simp [update_from_report, hc, hst, hfind, hlook, hres]

/-- C3, witness: the failing setup report on t1, which carries the
expected-failure marker and is still recorded as ERROR. -/
theorem C3_witness :
    update_from_report exState exReportSetupFail =
      { exState with
        nodes := setResult exState.nodes "t1" (applySetupTeardownFailed exT1Res exReportSetupFail) }
    ∧ (applySetupTeardownFailed exT1Res exReportSetupFail).outcome = TestOutcome.ERROR
    ∧ exReportSetupFail.wasxfail = true :=
  ⟨(C3_setup_teardown_failed exState exReportSetupFail "t1" exT1StoredNode exT1Res
      (Or.inl rfl) rfl (by decide) (by decide) (by decide)).1,
   (C3_setup_teardown_failed exState exReportSetupFail "t1" exT1StoredNode exT1Res
      (Or.inl rfl) rfl (by decide) (by decide) (by decide)).2.1,
   rfl⟩

/-- C8, witness: the children-sum laws at a concrete describe node
and the TEST base case at a concrete test node. -/
theorem C8_witness :
    DescribeNode.test_count (exGroupNode [exTestNode "a" TestOutcome.PASSED, exTestNode "b" TestOutcome.FAILED]) =
      ((exGroupNode [exTestNode "a" TestOutcome.PASSED, exTestNode "b" TestOutcome.FAILED]).children.map
        DescribeNode.test_count).sum
    ∧ DescribeNode.test_count (exTestNode "a" TestOutcome.PASSED) = 1 :=
  ⟨((C8_aggregation (exGroupNode [exTestNode "a" TestOutcome.PASSED, exTestNode "b" TestOutcome.FAILED])).2
      (by decide)).1,
   ((C8_aggregation (exTestNode "a" TestOutcome.PASSED)).1 (by decide)).1⟩

/-- C6: an element whose identifier was already seen resolves to the
existing node with no reclassification or recreation; builds from a
state with unique heap keys keep them unique, so a shared ancestor
identifier owns exactly one node; build is idempotent; and on the
two example chains the shared describe node holds the children of
both chains in first-seen order, each identifier appears exactly
once, and rebuilding changes nothing. -/
theorem C6_build_reuse_idempotent :
    (∀ (s : CollectorState) (p : Option String) (e : ChainLink) (rest : List ChainLink),
      (lookupNode s.nodes e.nodeid).isSome = true →
      buildChain s p (e :: rest) = buildChain s (some e.nodeid) rest)
    ∧ (∀ (s : CollectorState) (chains : List (List ChainLink)),
      (s.nodes.map (fun q => q.1)).Nodup →
      ((build_from_items s chains).nodes.map (fun q => q.1)).Nodup)
    ∧ (∀ (s : CollectorState) (chains : List (List ChainLink)),
      build_from_items (build_from_items s chains) chains = build_from_items s chains)
    ∧ (lookupNode exState.nodes "d").map StoredNode.children = some ["t1", "t2"]
    ∧ exState.nodes.map (fun q => q.1) = ["f", "d", "t1", "t2"]
    ∧ build_from_items exState [exChain1, exChain2] = exState := by
  refine ⟨?_, ?_, ?_, by decide, by decide, by decide⟩
  · intro s p e rest h
    simp only [buildChain]
    rw [if_pos h]
  · intro s chains h
    exact build_nodup chains s h
  · intro s chains
    exact build_noop chains _ (build_covers chains s)

/-- C6, witness: the reuse equation at the already-built module link,
and key uniqueness of the example build. -/
theorem C6_witness :
    buildChain exState none [exModuleLink] = buildChain exState (some "f") []
    ∧ ((build_from_items initState [exChain1, exChain2]).nodes.map (fun q => q.1)).Nodup :=
  ⟨C6_build_reuse_idempotent.1 exState none exModuleLink [] (by decide),
   C6_build_reuse_idempotent.2.1 initState [exChain1, exChain2] (by decide)⟩

/-- C10: a node created with no resolved parent and a non-FILE kind is
never reachable from the roots, whatever the fuel of the search, so
any later event targeting its identifier is a no-op; the entry itself
survives every later build and update with its default Result (PENDING
outcome, zero duration) when it is a TEST, or no Result otherwise; and
erasing it changes no materialised forest and no tree-level total. -/
theorem C10_orphan_invariant (s : CollectorState) (e : ChainLink) (nt : NodeType)
    (dn doc : String) (fx : List String)
    (chains : List (List ChainLink)) (reports : List Report)
    (hroots : RootsClosed s) (hchild : ChildrenClosed s) (hfields : fieldsOK s.nodes)
    (hfresh : lookupNode s.nodes e.nodeid = none)
    (hcl : classify_link e = some (nt, dn, doc, fx))
    (hnf : nt ≠ NodeType.FILE) :
    ∀ s3, s3 = reports.foldl update_from_report
        (build_from_items (buildChain s none [e]) chains) →
      (∀ fuel, findDFS s3.nodes e.nodeid fuel s3.roots = none)
      ∧ find_by_nodeid s3 e.nodeid = none
      ∧ (∀ r : Report, r.nodeid = e.nodeid → update_from_report s3 r = s3)
      ∧ (∃ n2, lookupNode s3.nodes e.nodeid = some n2
          ∧ n2.result = (if nt = NodeType.TEST then some { fixture_names := fx } else none)
          ∧ n2.node_type = nt)
      ∧ (∀ fuel, matForest s3 fuel = matForest (eraseKey s3 e.nodeid) fuel)
      ∧ (∀ fuel,
          total_tests s3 fuel = total_tests (eraseKey s3 e.nodeid) fuel
          ∧ total_passed s3 fuel = total_passed (eraseKey s3 e.nodeid) fuel
          ∧ total_failed s3 fuel = total_failed (eraseKey s3 e.nodeid) fuel
          ∧ total_skipped s3 fuel = total_skipped (eraseKey s3 e.nodeid) fuel
          ∧ total_duration s3 fuel = total_duration (eraseKey s3 e.nodeid) fuel) := by
  intro s3 hs3
  have hstep := buildChain_single_create s e nt dn doc fx hfresh hcl hnf
  have h1look : lookupNode (buildChain s none [e]).nodes e.nodeid =
      some (newNodeFor e nt dn doc fx) := by
    rw [hstep]
    show lookupNode (s.nodes ++ [(e.nodeid, newNodeFor e nt dn doc fx)]) e.nodeid = _
    rw [lookupNode_append, hfresh]
    simp [lookupNode]
  have h1orphan : Orphan (buildChain s none [e]) e.nodeid := by
    rw [hstep]
    constructor
    · show e.nodeid ∉ s.roots
      intro hmem
      have hs := hroots e.nodeid hmem
      rw [hfresh] at hs
      simp at hs
    · intro p hp
      rcases List.mem_append.mp hp with hin | hnew
      · intro hc
        have hs := hchild p hin e.nodeid hc
        rw [hfresh] at hs
        simp at hs
      · simp at hnew
        rw [hnew]
        simp [newNodeFor]
  have h1fields : fieldsOK (buildChain s none [e]).nodes := by
    rw [hstep]
    refine fieldsOK_append _ _ hfields ?_
    intro p hp
    simp at hp
    rw [hp]
    rfl
  have h1mem : (lookupNode (buildChain s none [e]).nodes e.nodeid).isSome = true := by
    rw [h1look]
    rfl
  obtain ⟨n2, h2look, h2res, h2type, _⟩ := build_entry chains _ e.nodeid _ h1look
  have h2orphan := build_orphan chains _ e.nodeid h1mem h1orphan
  have h2fields := build_fields chains _ h1fields
  obtain ⟨h3look, h3orphan, h3fields⟩ :=
    updates_preserve_orphan_entry reports _ e.nodeid n2 h2fields h2orphan h2look
  rw [← hs3] at h3look h3orphan h3fields
  have hfind : ∀ fuel, findDFS s3.nodes e.nodeid fuel s3.roots = none :=
    orphan_find_none s3 e.nodeid h3fields h3orphan
  refine ⟨hfind, hfind (stateFuel s3), ?_, ⟨n2, h3look, ?_, ?_⟩, ?_, ?_⟩
  · intro r hr
    refine update_noop_of_find_none s3 r ?_
    rw [hr]
    exact hfind (stateFuel s3)
  · rw [h2res]
    simp [newNodeFor]
  · rw [h2type]
    rfl
  · exact matForest_erase s3 e.nodeid h3orphan
  · intro fuel
    have hm := matForest_erase s3 e.nodeid h3orphan fuel
    refine ⟨?_, ?_, ?_, ?_, ?_⟩ <;>
      simp [total_tests, total_passed, total_failed, total_skipped, total_duration, hm]

/-- C10, witness: the orphan describe node of the example pipeline is
invisible to the search and its targeted update is a no-op. -/
theorem C10_witness :
    find_by_nodeid exOrphanState "d" = none
    ∧ update_from_report exOrphanState exReportOrphan = exOrphanState := by
  have h := C10_orphan_invariant initState exDescLink NodeType.DESCRIBE
      "my feature" "block doc" [] [exChain1] [exReportUnknown]
      (by intro id hid; simp [initState] at hid)
      (by intro p hp; simp [initState] at hp)
      (by intro p hp; simp [initState] at hp)
      rfl (by decide) (by decide)
      exOrphanState rfl
  exact ⟨h.2.1, h.2.2.1 exReportOrphan rfl⟩

end PDB
